import Mathlib

/-!
Verification of the MBN ROM loader core (`src/mbn_loader.py`): the
`MbnHeader` parser and the `MbnRom` segmenter.  Byte buffers are modelled
as `List Nat`; Python slices `data[a:b]` (which clamp to the buffer and
never wrap for nonnegative indices) are modelled by `pySlice`.  The two
`ValueError`s the code can raise — message `'Invalid ROM header size'`
for a short header and `'Invalid ROM image size'` for an empty image
slice — are the constructors `truncatedHeader` and `emptyImage` of
`MbnError`.  The specification additionally names `TruncatedImage` and
`MalformedLayout` errors; constructors for them are included so that
statements about them can be written, but the embedded code never
produces them.
-/

namespace MbnLoader

/-- Python slice `data[a:b]` for nonnegative `a`, `b`: clamps both ends to
the buffer and yields `[]` whenever `b ≤ a`. -/
def pySlice (data : List Nat) (a b : Nat) : List Nat :=
  (data.drop a).take (b - a)

/-- One little-endian unsigned 32-bit read, as done by
`struct.unpack_from('<L', rom_data, off)`; positions past the end read
as 0 (callers check the buffer length first). -/
def readLE32 (data : List Nat) (off : Nat) : Nat :=
  data.getD off 0
    + 256 * data.getD (off + 1) 0
    + 65536 * data.getD (off + 2) 0
    + 16777216 * data.getD (off + 3) 0

/-- `MbnHeader.SBL_HEADER_SIZE = 0x28`. -/
def SBL_HEADER_SIZE : Nat := 40

/-- The ten header fields, in the order `struct.unpack_from('<LLLLLLLLLL', ...)`
assigns them in `MbnHeader.__init__`. -/
structure MbnHeader where
  load_index : Nat
  flash_partition_version : Nat
  image_offset : Nat
  image_virtual_address : Nat
  image_size : Nat
  code_size : Nat
  signature_virtual_address : Nat
  signature_size : Nat
  cert_chain_virtual_address : Nat
  cert_chain_size : Nat
deriving DecidableEq

/-- Failure outcomes.  The code raises exactly two distinct errors:
`truncatedHeader` (`ValueError 'Invalid ROM header size'`) and
`emptyImage` (`ValueError 'Invalid ROM image size'`).  The spec's error
taxonomy also names `TruncatedImage` and `MalformedLayout`; they are
present here so claims about them can be stated, but no code path
returns them. -/
inductive MbnError where
  | truncatedHeader
  | emptyImage
  | truncatedImage
  | malformedLayout
deriving DecidableEq

/-- The tuple unpacking `struct.unpack_from('<LLLLLLLLLL', rom_data)`:
ten little-endian u32 reads at offsets 0, 4, ..., 36, assigned to the
fields in the fixed order of `MbnHeader.__init__`. -/
def decodeHeader (rom_data : List Nat) : MbnHeader :=
  { load_index := readLE32 rom_data 0
    flash_partition_version := readLE32 rom_data 4
    image_offset := readLE32 rom_data 8
    image_virtual_address := readLE32 rom_data 12
    image_size := readLE32 rom_data 16
    code_size := readLE32 rom_data 20
    signature_virtual_address := readLE32 rom_data 24
    signature_size := readLE32 rom_data 28
    cert_chain_virtual_address := readLE32 rom_data 32
    cert_chain_size := readLE32 rom_data 36 }

/-- `MbnHeader.__init__`: fail if fewer than 40 bytes, otherwise decode
the ten little-endian u32 fields at offsets 0, 4, ..., 36.  No value
validation. -/
def mbnHeader (rom_data : List Nat) : Except MbnError MbnHeader :=
  if rom_data.length < SBL_HEADER_SIZE then .error .truncatedHeader
  else .ok (decodeHeader rom_data)

/-- `image_start = self.header.image_offset + MbnHeader.SBL_HEADER_SIZE`. -/
def imageStart (h : MbnHeader) : Nat :=
  h.image_offset + SBL_HEADER_SIZE

/-- `self.image = rom_data[image_start:image_start + self.header.image_size]`. -/
def imageOf (rom_data : List Nat) (h : MbnHeader) : List Nat :=
  pySlice rom_data (imageStart h) (imageStart h + h.image_size)

/-- The fields `MbnRom.__init__` stores.  Attributes the Python code only
assigns inside a presence branch (`sig_data`/`sig_base`, `cert_data`/
`cert_base`, `tail_data`/`tail_base`, `overlay_data`/`overlay_base`) are
`Option`s, `none` when the branch is not taken (the code marks absence by
`None` data / an unset base attribute). -/
structure MbnRom where
  header : MbnHeader
  image : List Nat
  overlay_data : Option (List Nat)
  overlay_base : Option Nat
  code_base : Nat
  code_data : List Nat
  sig_data : Option (List Nat)
  sig_base : Option Nat
  cert_data : Option (List Nat)
  cert_base : Option Nat
  tail_data : Option (List Nat)
  tail_base : Option Nat
deriving DecidableEq

/-- The segment fields of `MbnRom.__init__` (lines 52-94), computed from
the already-parsed header and the raw bytes.  `tail_size` is a Python
`int` and may be negative, hence the `Int` subtraction. -/
def segmentsOf (rom_data : List Nat) (h : MbnHeader) : MbnRom :=
  let image := imageOf rom_data h
  let overlayRaw := rom_data.drop (imageStart h + h.image_size)
  let code_size := h.code_size
  let sig_size := h.signature_size
  let cert_size := h.cert_chain_size
  let tailSize : Int := (image.length : Int) - ((code_size + sig_size + cert_size : Nat) : Int)
  { header := h
    image := image
    overlay_data := if overlayRaw.length = 0 then none else some overlayRaw
    overlay_base := if overlayRaw.length = 0 then none
      else some (h.image_virtual_address + h.image_size)
    code_base := h.image_virtual_address
    code_data := pySlice image 0 code_size
    sig_data := if sig_size > 0 then some (pySlice image code_size (code_size + sig_size))
      else none
    sig_base := if sig_size > 0 then some h.signature_virtual_address else none
    cert_data := if cert_size > 0 then
      some (pySlice image (code_size + sig_size) (code_size + sig_size + cert_size))
      else none
    cert_base := if cert_size > 0 then some h.cert_chain_virtual_address else none
    tail_data := if tailSize > 0 then some (image.drop (code_size + sig_size + cert_size))
      else none
    tail_base := if tailSize > 0 then
      some (h.image_virtual_address + code_size + sig_size + cert_size)
      else none }

/-- `MbnRom.__init__`: parse the header, slice out the image, raise
`ValueError 'Invalid ROM image size'` when the image slice is empty, and
otherwise carve the segments.  The segment attributes are pure slices of
the input, so computing them after the emptiness check (the source
computes `overlay_data` just before it) is observationally identical:
on the error path the partially-built object is discarded. -/
def mbnRom (rom_data : List Nat) : Except MbnError MbnRom :=
  match mbnHeader rom_data with
  | .error e => .error e
  | .ok header =>
      if (imageOf rom_data header).length = 0 then .error .emptyImage
      else .ok (segmentsOf rom_data header)

theorem pySlice_zero (l : List Nat) (b : Nat) : pySlice l 0 b = l.take b := by
  simp [pySlice]

theorem pySlice_length_le (l : List Nat) (a b : Nat) :
    (pySlice l a b).length ≤ b - a := by
  simp only [pySlice]
  exact List.length_take_le _ _

theorem imageOf_length_le (d : List Nat) (h : MbnHeader) :
    (imageOf d h).length ≤ h.image_size := by
  have := pySlice_length_le d (imageStart h) (imageStart h + h.image_size)
  simpa using this

/-- Inversion for the success path of `mbnRom`. -/
theorem mbnRom_ok_inv (d : List Nat) (rom : MbnRom) (h : mbnRom d = .ok rom) :
    ∃ hd, mbnHeader d = .ok hd ∧ (imageOf d hd).length ≠ 0 ∧ rom = segmentsOf d hd := by
  unfold mbnRom at h
  split at h
  next e heq => exact Except.noConfusion h
  next hd heq =>
    split at h
    next himg => exact Except.noConfusion h
    next himg => exact ⟨hd, heq, himg, (Except.ok.inj h).symm⟩

instance {ε α : Type} [DecidableEq ε] [DecidableEq α] : DecidableEq (Except ε α) := fun a b =>
  match a, b with
  | .error e, .error f =>
      if h : e = f then isTrue (by rw [h])
      else isFalse (fun hc => h (Except.error.inj hc))
  | .ok x, .ok y =>
      if h : x = y then isTrue (by rw [h])
      else isFalse (fun hc => h (Except.ok.inj hc))
  | .error _, .ok _ => isFalse (fun hc => Except.noConfusion hc)
  | .ok _, .error _ => isFalse (fun hc => Except.noConfusion hc)

theorem mbnHeader_eq_error (d : List Nat) (hl : d.length < SBL_HEADER_SIZE) :
    mbnHeader d = .error .truncatedHeader := by
  unfold mbnHeader
  rw [if_pos hl]

theorem mbnHeader_eq_ok (d : List Nat) (hl : SBL_HEADER_SIZE ≤ d.length) :
    mbnHeader d = .ok (decodeHeader d) := by
  unfold mbnHeader
  rw [if_neg (Nat.not_lt.mpr hl)]

theorem mbnHeader_ok_inv (d : List Nat) (hd : MbnHeader) (h : mbnHeader d = .ok hd) :
    SBL_HEADER_SIZE ≤ d.length ∧ hd = decodeHeader d := by
  unfold mbnHeader at h
  split at h
  next hlt => exact Except.noConfusion h
  next hlt => exact ⟨Nat.not_lt.mp hlt, (Except.ok.inj h).symm⟩

theorem getD_lt_256 (d : List Nat) (hb : ∀ b ∈ d, b < 256) (i : Nat) :
    d.getD i 0 < 256 := by
  rcases Nat.lt_or_ge i d.length with h | h
  · rw [List.getD_eq_getElem?_getD, List.getElem?_eq_getElem h]
    exact hb _ (List.getElem_mem h)
  · rw [List.getD_eq_getElem?_getD, List.getElem?_eq_none h]
    norm_num

theorem readLE32_lt (d : List Nat) (hb : ∀ b ∈ d, b < 256) (off : Nat) :
    readLE32 d off < 4294967296 := by
  have h0 := getD_lt_256 d hb off
  have h1 := getD_lt_256 d hb (off + 1)
  have h2 := getD_lt_256 d hb (off + 2)
  have h3 := getD_lt_256 d hb (off + 3)
  unfold readLE32
  omega

theorem mbnRom_empty_of_start_ge (d : List Nat) (hl : SBL_HEADER_SIZE ≤ d.length)
    (hstart : d.length ≤ readLE32 d 8 + SBL_HEADER_SIZE) :
    mbnRom d = .error .emptyImage := by
  have himg : (imageOf d (decodeHeader d)).length = 0 := by
    unfold imageOf pySlice
    rw [List.drop_eq_nil_of_le]
    · simp
    · simpa [imageStart, decodeHeader] using hstart
  simp [mbnRom, mbnHeader_eq_ok d hl, himg]

/-- A valid MBN input exercising every optional segment: `image_offset = 0`,
`image_virtual_address = 0x1000`, `image_size = 8`, `code_size = 3`,
`signature_size = 2`, `cert_chain_size = 1`, tail of 2 bytes, 1 overlay
byte. -/
def ex1 : List Nat :=
  [1, 0, 0, 0, 2, 0, 0, 0, 0, 0, 0, 0, 0, 16, 0, 0, 8, 0, 0, 0,
   3, 0, 0, 0, 0, 32, 0, 0, 2, 0, 0, 0, 0, 48, 0, 0, 1, 0, 0, 0,
   10, 11, 12, 13, 14, 15, 16, 17, 99]

/-- The `MbnRom` produced from `ex1`. -/
def ex1Rom : MbnRom :=
  { header := ⟨1, 2, 0, 4096, 8, 3, 8192, 2, 12288, 1⟩
    image := [10, 11, 12, 13, 14, 15, 16, 17]
    overlay_data := some [99]
    overlay_base := some 4104
    code_base := 4096
    code_data := [10, 11, 12]
    sig_data := some [13, 14]
    sig_base := some 8192
    cert_data := some [15]
    cert_base := some 12288
    tail_data := some [16, 17]
    tail_base := some 4102 }

/-- An input whose header declares `code_size = 10` yet `image_size = 4`:
the sub-region sizes sum to more than the image size (negative
`tail_size`). -/
def ex2 : List Nat :=
  [0, 0, 0, 0, 0, 0, 0, 0, 0, 0, 0, 0, 0, 0, 0, 0, 4, 0, 0, 0,
   10, 0, 0, 0, 0, 0, 0, 0, 0, 0, 0, 0, 0, 0, 0, 0, 0, 0, 0, 0,
   1, 2, 3, 4]

/-- The `MbnRom` produced from `ex2`: construction succeeds, the code
slice is clamped to the 4 available image bytes, no tail segment. -/
def ex2Rom : MbnRom :=
  { header := ⟨0, 0, 0, 0, 4, 10, 0, 0, 0, 0⟩
    image := [1, 2, 3, 4]
    overlay_data := none
    overlay_base := none
    code_base := 0
    code_data := [1, 2, 3, 4]
    sig_data := none
    sig_base := none
    cert_data := none
    cert_base := none
    tail_data := none
    tail_base := none }

/-- A header-only input (exactly 40 bytes) whose `image_offset` field is
100, so the computed image start (140) lies past the end of the input. -/
def ex4 : List Nat :=
  [0, 0, 0, 0, 0, 0, 0, 0, 100, 0, 0, 0, 0, 0, 0, 0, 0, 0, 0, 0,
   0, 0, 0, 0, 0, 0, 0, 0, 0, 0, 0, 0, 0, 0, 0, 0, 0, 0, 0, 0]

/-- C6: `mbnHeader` fails with `truncatedHeader` on every input shorter
than 40 bytes; on every input of at least 40 bytes it succeeds with the
ten fields decoded as little-endian u32 values at offsets 0, 4, ..., 36
in the fixed field order, with no validation of field values; and (when
the input is made of bytes) every decoded field is an unsigned 32-bit
value. -/
theorem mbnHeader_spec (d : List Nat) :
    (d.length < SBL_HEADER_SIZE → mbnHeader d = .error .truncatedHeader) ∧
    (SBL_HEADER_SIZE ≤ d.length →
      mbnHeader d = .ok (decodeHeader d) ∧
      (decodeHeader d).load_index = readLE32 d 0 ∧
      (decodeHeader d).flash_partition_version = readLE32 d 4 ∧
      (decodeHeader d).image_offset = readLE32 d 8 ∧
      (decodeHeader d).image_virtual_address = readLE32 d 12 ∧
      (decodeHeader d).image_size = readLE32 d 16 ∧
      (decodeHeader d).code_size = readLE32 d 20 ∧
      (decodeHeader d).signature_virtual_address = readLE32 d 24 ∧
      (decodeHeader d).signature_size = readLE32 d 28 ∧
      (decodeHeader d).cert_chain_virtual_address = readLE32 d 32 ∧
      (decodeHeader d).cert_chain_size = readLE32 d 36) ∧
    ((∀ b ∈ d, b < 256) → ∀ off, readLE32 d off < 4294967296) :=
  ⟨mbnHeader_eq_error d,
   fun hl => ⟨mbnHeader_eq_ok d hl, rfl, rfl, rfl, rfl, rfl, rfl, rfl, rfl, rfl, rfl⟩,
   fun hb off => readLE32_lt d hb off⟩

/-- C6 witness: the header parser, applied to the empty input and to the
concrete 49-byte input `ex1`. -/
theorem mbnHeader_spec_witness :
    mbnHeader ([] : List Nat) = .error .truncatedHeader ∧
    mbnHeader ex1 = .ok (decodeHeader ex1) ∧
    readLE32 ex1 0 < 4294967296 :=
  ⟨(mbnHeader_spec ([] : List Nat)).1 (by decide),
   ((mbnHeader_spec ex1).2.1 (by decide)).1,
   (mbnHeader_spec ex1).2.2 (by decide) 0⟩

/-- C9: parsing is deterministic and pure — on any fixed byte buffer,
two runs of the header parser and of the segmenter are definitionally the
same value, identical failures included; the embedding has no state. -/
theorem parse_deterministic (d : List Nat) :
    mbnHeader d = mbnHeader d ∧ mbnRom d = mbnRom d :=
  ⟨rfl, rfl⟩

/-- C8: on every input of exactly 40 bytes (header only, no payload) the
segmenter fails with the `emptyImage` error (the code's single
`'Invalid ROM image size'` failure, which also covers the case where
`image_offset` pushes the image start past the input end). -/
theorem header_only_fails (d : List Nat) (h : d.length = SBL_HEADER_SIZE) :
    mbnRom d = .error .emptyImage :=
  mbnRom_empty_of_start_ge d (le_of_eq h.symm)
    (by rw [h]; exact Nat.le_add_left _ _)

/-- C8 witness: the 40-byte input `ex4`. -/
theorem header_only_fails_witness :
    ex4.length = SBL_HEADER_SIZE ∧ mbnRom ex4 = .error .emptyImage :=
  ⟨by decide, header_only_fails ex4 (by decide)⟩

/-- C2 counterexample: on `ex4` the computed image start (140) exceeds
the input length (40), yet the result is the `emptyImage` error — the
same `ValueError 'Invalid ROM image size'` as an empty image — and not a
distinct `truncatedImage` failure, contradicting the claim that such
inputs fail with a `TruncatedImage` error distinct from `EmptyImage`. -/
theorem truncatedImage_counterexample :
    SBL_HEADER_SIZE ≤ ex4.length ∧
    ex4.length < (decodeHeader ex4).image_offset + SBL_HEADER_SIZE ∧
    mbnRom ex4 = .error .emptyImage ∧
    mbnRom ex4 ≠ .error .truncatedImage := by
  decide

/-- C2 amended: when `image_start = header.image_offset + 40` exceeds the
input length, segmentation fails — but with the code's single
`'Invalid ROM image size'` error (`emptyImage`), not with a distinct
`TruncatedImage` error. -/
theorem truncated_start_fails (d : List Nat) (hd : MbnHeader)
    (hh : mbnHeader d = .ok hd) (hstart : d.length < imageStart hd) :
    mbnRom d = .error .emptyImage ∧ mbnRom d ≠ .error .truncatedImage := by
  obtain ⟨hl, rfl⟩ := mbnHeader_ok_inv d hd hh
  have he : mbnRom d = .error .emptyImage := by
    apply mbnRom_empty_of_start_ge d hl
    have : d.length < readLE32 d 8 + SBL_HEADER_SIZE := by
      simpa [imageStart, decodeHeader] using hstart
    omega
  refine ⟨he, ?_⟩
  rw [he]
  decide

/-- C2 amended witness: the concrete input `ex4`. -/
theorem truncated_start_fails_witness :
    mbnRom ex4 = .error .emptyImage ∧ mbnRom ex4 ≠ .error .truncatedImage :=
  truncated_start_fails ex4 (decodeHeader ex4) (by decide) (by decide)

/-- C1 counterexample: on `ex2` the header declares
`code_size + signature_size + cert_chain_size = 10 > image_size = 4`
(negative `tail_size`), yet `MbnRom` construction succeeds — it does not
fail with a `MalformedLayout` error, contradicting the claim. -/
theorem malformedLayout_counterexample :
    mbnRom ex2 = .ok ex2Rom ∧
    ex2Rom.header.image_size <
      ex2Rom.header.code_size + ex2Rom.header.signature_size + ex2Rom.header.cert_chain_size ∧
    mbnRom ex2 ≠ .error .malformedLayout := by
  decide

/-- C1 amended: the code never fails with `MalformedLayout` — no code
path produces that error.  When the declared sub-region sizes sum to more
than `image_size`, segmentation proceeds, silently clamping: the
sub-region slices stay within the image bounds and the tail segment is
simply absent. -/
theorem no_malformedLayout (d : List Nat) :
    mbnRom d ≠ .error .malformedLayout ∧
    (∀ rom, mbnRom d = .ok rom →
      rom.header.image_size <
        rom.header.code_size + rom.header.signature_size + rom.header.cert_chain_size →
      rom.tail_data = none ∧ rom.code_data.length ≤ rom.image.length) := by
  constructor
  · intro hc
    unfold mbnRom at hc
    split at hc
    next e heq =>
      have he : e = MbnError.malformedLayout := Except.error.inj hc
      subst he
      unfold mbnHeader at heq
      split at heq
      next => exact MbnError.noConfusion (Except.error.inj heq)
      next => exact Except.noConfusion heq
    next hd heq =>
      split at hc
      next => exact MbnError.noConfusion (Except.error.inj hc)
      next => exact Except.noConfusion hc
  · intro rom h hlt
    obtain ⟨hd, hh, himg, rfl⟩ := mbnRom_ok_inv d rom h
    have hle := imageOf_length_le d hd
    simp only [segmentsOf] at hlt ⊢
    constructor
    · split
      next hpos => exfalso; omega
      next => rfl
    · simp [pySlice]

/-- C1 amended witness: the concrete input `ex2` with oversized
sub-region sizes. -/
theorem no_malformedLayout_witness :
    mbnRom ex2 ≠ .error .malformedLayout ∧
    ex2Rom.tail_data = none ∧ ex2Rom.code_data.length ≤ ex2Rom.image.length :=
  ⟨(no_malformedLayout ex2).1,
   ((no_malformedLayout ex2).2 ex2Rom (by decide) (by decide)).1,
   ((no_malformedLayout ex2).2 ex2Rom (by decide) (by decide)).2⟩

/-- C3 counterexample: on `ex2` segmentation succeeds but the code
segment holds 4 bytes while `header.code_size = 10` — the slice
`image[0:code_size]` was clamped to the available image bytes, so
`len(code_segment.bytes) == header.code_size` fails. -/
theorem code_size_counterexample :
    mbnRom ex2 = .ok ex2Rom ∧
    ex2Rom.code_data.length = 4 ∧ ex2Rom.header.code_size = 10 := by
  decide

/-- C3 amended: on every input on which segmentation succeeds, the code
segment's byte length equals `min header.code_size (len image)` — it
equals `header.code_size` exactly when the image holds at least
`code_size` bytes, and is clamped to the image length otherwise. -/
theorem code_data_length (d : List Nat) (rom : MbnRom) (h : mbnRom d = .ok rom) :
    rom.code_data.length = min rom.header.code_size rom.image.length := by
  obtain ⟨hd, hh, himg, rfl⟩ := mbnRom_ok_inv d rom h
  simp [segmentsOf, pySlice]

/-- C3 amended witness: the concrete input `ex1`, whose image (8 bytes)
covers its `code_size` (3). -/
theorem code_data_length_witness :
    ex1Rom.code_data.length = min ex1Rom.header.code_size ex1Rom.image.length :=
  code_data_length ex1 ex1Rom (by decide)

/-- C4: presence of each optional segment is exactly determined:
signature iff `signature_size > 0`, cert-chain iff `cert_chain_size > 0`,
tail iff its size `len(image) - (code_size+signature_size+cert_chain_size)`
is positive, overlay iff the input has bytes strictly beyond
`image_start + image_size`. -/
theorem segment_presence (d : List Nat) (rom : MbnRom) (h : mbnRom d = .ok rom) :
    (rom.sig_data ≠ none ↔ 0 < rom.header.signature_size) ∧
    (rom.cert_data ≠ none ↔ 0 < rom.header.cert_chain_size) ∧
    (rom.tail_data ≠ none ↔
      rom.header.code_size + rom.header.signature_size + rom.header.cert_chain_size
        < rom.image.length) ∧
    (rom.overlay_data ≠ none ↔ imageStart rom.header + rom.header.image_size < d.length) := by
  obtain ⟨hd, hh, himg, rfl⟩ := mbnRom_ok_inv d rom h
  refine ⟨?_, ?_, ?_, ?_⟩ <;> simp only [segmentsOf]
  · split
    next hs => simp [hs]
    next hs => simp [hs]
  · split
    next hk => simp [hk]
    next hk => simp [hk]
  · split
    next hpos => simp; omega
    next hneg => simp; omega
  · split
    next h0 =>
      simp only [List.length_drop] at h0
      simp
      omega
    next h0 =>
      simp only [List.length_drop] at h0
      simp
      omega

/-- C4 witness: the input `ex1`, on which all four optional segments are
present. -/
theorem segment_presence_witness :
    (ex1Rom.sig_data ≠ none ↔ 0 < ex1Rom.header.signature_size) ∧
    (ex1Rom.cert_data ≠ none ↔ 0 < ex1Rom.header.cert_chain_size) ∧
    (ex1Rom.tail_data ≠ none ↔
      ex1Rom.header.code_size + ex1Rom.header.signature_size + ex1Rom.header.cert_chain_size
        < ex1Rom.image.length) ∧
    (ex1Rom.overlay_data ≠ none ↔ imageStart ex1Rom.header + ex1Rom.header.image_size < ex1.length) :=
  segment_presence ex1 ex1Rom (by decide)

/-- C5: concatenating the code, signature (if present), cert-chain
(if present) and tail (if present) bytes, in that fixed order, reproduces
exactly the image slice
`rom_data[image_start : image_start + image_size]` (clamped to the
input's end). -/
theorem segment_roundtrip (d : List Nat) (rom : MbnRom) (h : mbnRom d = .ok rom) :
    rom.code_data ++ rom.sig_data.getD [] ++ rom.cert_data.getD [] ++ rom.tail_data.getD []
      = rom.image ∧
    rom.image = pySlice d (imageStart rom.header) (imageStart rom.header + rom.header.image_size) := by
  obtain ⟨hd, hh, himg, rfl⟩ := mbnRom_ok_inv d rom h
  refine ⟨?_, rfl⟩
  simp only [segmentsOf]
  generalize imageOf d hd = l
  have hsig : (if hd.signature_size > 0 then
      some (pySlice l hd.code_size (hd.code_size + hd.signature_size)) else none).getD []
      = (l.drop hd.code_size).take hd.signature_size := by
    rcases Nat.eq_zero_or_pos hd.signature_size with hs | hs
    · simp [hs]
    · simp [hs, pySlice, Nat.add_sub_cancel_left]
  have hcert : (if hd.cert_chain_size > 0 then
      some (pySlice l (hd.code_size + hd.signature_size)
        (hd.code_size + hd.signature_size + hd.cert_chain_size)) else none).getD []
      = (l.drop (hd.code_size + hd.signature_size)).take hd.cert_chain_size := by
    rcases Nat.eq_zero_or_pos hd.cert_chain_size with hk | hk
    · simp [hk]
    · simp [hk, pySlice, Nat.add_sub_cancel_left]
  rw [hsig, hcert, pySlice_zero, ← List.take_add, ← List.take_add]
  split
  next hpos => simp
  next hneg =>
    simp only [Option.getD_none, List.append_nil]
    exact List.take_of_length_le (by omega)

/-- C5 witness: the input `ex1`, whose image splits into all four
sub-regions. -/
theorem segment_roundtrip_witness :
    ex1Rom.code_data ++ ex1Rom.sig_data.getD [] ++ ex1Rom.cert_data.getD []
      ++ ex1Rom.tail_data.getD [] = ex1Rom.image ∧
    ex1Rom.image = pySlice ex1 (imageStart ex1Rom.header)
      (imageStart ex1Rom.header + ex1Rom.header.image_size) :=
  segment_roundtrip ex1 ex1Rom (by decide)

/-- C7: segment base addresses — code at `image_virtual_address`;
signature and cert-chain (when present) at the header's
`signature_virtual_address` / `cert_chain_virtual_address`, taken
directly from the header; tail (when present) at
`image_virtual_address + code_size + signature_size + cert_chain_size`;
overlay (when present) at `image_virtual_address + image_size`. -/
theorem segment_bases (d : List Nat) (rom : MbnRom) (h : mbnRom d = .ok rom) :
    rom.code_base = rom.header.image_virtual_address ∧
    (rom.sig_data ≠ none → rom.sig_base = some rom.header.signature_virtual_address) ∧
    (rom.cert_data ≠ none → rom.cert_base = some rom.header.cert_chain_virtual_address) ∧
    (rom.tail_data ≠ none → rom.tail_base = some (rom.header.image_virtual_address
      + rom.header.code_size + rom.header.signature_size + rom.header.cert_chain_size)) ∧
    (rom.overlay_data ≠ none → rom.overlay_base = some (rom.header.image_virtual_address
      + rom.header.image_size)) := by
  obtain ⟨hd, hh, himg, rfl⟩ := mbnRom_ok_inv d rom h
  refine ⟨rfl, ?_, ?_, ?_, ?_⟩ <;> simp only [segmentsOf] <;> intro hne
  · split
    next => rfl
    next hs => rw [if_neg hs] at hne; exact absurd rfl hne
  · split
    next => rfl
    next hk => rw [if_neg hk] at hne; exact absurd rfl hne
  · split
    next => rfl
    next ht => rw [if_neg ht] at hne; exact absurd rfl hne
  · split
    next h0 => rw [if_pos h0] at hne; exact absurd rfl hne
    next => rfl

/-- C7 witness: the input `ex1`, on which every segment is present. -/
theorem segment_bases_witness :
    ex1Rom.code_base = ex1Rom.header.image_virtual_address ∧
    (ex1Rom.sig_data ≠ none → ex1Rom.sig_base = some ex1Rom.header.signature_virtual_address) ∧
    (ex1Rom.cert_data ≠ none → ex1Rom.cert_base = some ex1Rom.header.cert_chain_virtual_address) ∧
    (ex1Rom.tail_data ≠ none → ex1Rom.tail_base = some (ex1Rom.header.image_virtual_address
      + ex1Rom.header.code_size + ex1Rom.header.signature_size + ex1Rom.header.cert_chain_size)) ∧
    (ex1Rom.overlay_data ≠ none → ex1Rom.overlay_base = some (ex1Rom.header.image_virtual_address
      + ex1Rom.header.image_size)) :=
  segment_bases ex1 ex1Rom (by decide)

theorem drop_eq_pySlice (l : List Nat) (a : Nat) : l.drop a = pySlice l a (a + l.length) := by
  unfold pySlice
  rw [Nat.add_sub_cancel_left]
  exact (List.take_of_length_le (by simp)).symm

theorem pySlice_pySlice (d : List Nat) (a b a2 b2 : Nat) :
    ∃ A B, pySlice (pySlice d a b) a2 b2 = pySlice d A B := by
  refine ⟨a + a2, a + a2 + min (b2 - a2) (b - a - a2), ?_⟩
  unfold pySlice
  rw [Nat.add_sub_cancel_left, List.drop_take, List.drop_drop, List.take_take]

theorem pySlice_drop (d : List Nat) (a b a2 : Nat) :
    ∃ A B, (pySlice d a b).drop a2 = pySlice d A B := by
  rw [drop_eq_pySlice]
  exact pySlice_pySlice d a b a2 _

/-- C10: on every successful segmentation the byte regions are clamped,
never padded — `0 < len(image) ≤ image_size`, signature and cert-chain
bytes never exceed their declared sizes — and every produced byte region
(image, code, signature, cert-chain, tail, overlay) is a contiguous
Python slice of the original input. -/
theorem segments_within_input (d : List Nat) (rom : MbnRom) (h : mbnRom d = .ok rom) :
    0 < rom.image.length ∧ rom.image.length ≤ rom.header.image_size ∧
    (∀ sd, rom.sig_data = some sd → sd.length ≤ rom.header.signature_size) ∧
    (∀ cd, rom.cert_data = some cd → cd.length ≤ rom.header.cert_chain_size) ∧
    (∃ A B, rom.image = pySlice d A B) ∧
    (∃ A B, rom.code_data = pySlice d A B) ∧
    (∀ sd, rom.sig_data = some sd → ∃ A B, sd = pySlice d A B) ∧
    (∀ cd, rom.cert_data = some cd → ∃ A B, cd = pySlice d A B) ∧
    (∀ td, rom.tail_data = some td → ∃ A B, td = pySlice d A B) ∧
    (∀ od, rom.overlay_data = some od → ∃ A B, od = pySlice d A B) := by
  obtain ⟨hd, hh, himg, rfl⟩ := mbnRom_ok_inv d rom h
  refine ⟨Nat.pos_of_ne_zero himg, imageOf_length_le d hd, ?_, ?_, ?_, ?_, ?_, ?_, ?_, ?_⟩
    <;> simp only [segmentsOf]
  · intro sd hsd
    split at hsd
    next =>
      have hsd' := Option.some.inj hsd
      subst hsd'
      have := pySlice_length_le (imageOf d hd) hd.code_size
        (hd.code_size + hd.signature_size)
      simpa using this
    next => exact Option.noConfusion hsd
  · intro cd hcd
    split at hcd
    next =>
      have hcd' := Option.some.inj hcd
      subst hcd'
      have := pySlice_length_le (imageOf d hd) (hd.code_size + hd.signature_size)
        (hd.code_size + hd.signature_size + hd.cert_chain_size)
      simpa using this
    next => exact Option.noConfusion hcd
  · exact ⟨imageStart hd, imageStart hd + hd.image_size, rfl⟩
  · exact pySlice_pySlice d (imageStart hd) (imageStart hd + hd.image_size) 0 hd.code_size
  · intro sd hsd
    split at hsd
    next =>
      have hsd' := Option.some.inj hsd
      subst hsd'
      exact pySlice_pySlice d (imageStart hd) (imageStart hd + hd.image_size)
        hd.code_size (hd.code_size + hd.signature_size)
    next => exact Option.noConfusion hsd
  · intro cd hcd
    split at hcd
    next =>
      have hcd' := Option.some.inj hcd
      subst hcd'
      exact pySlice_pySlice d (imageStart hd) (imageStart hd + hd.image_size)
        (hd.code_size + hd.signature_size)
        (hd.code_size + hd.signature_size + hd.cert_chain_size)
    next => exact Option.noConfusion hcd
  · intro td htd
    split at htd
    next =>
      have htd' := Option.some.inj htd
      subst htd'
      exact pySlice_drop d (imageStart hd) (imageStart hd + hd.image_size)
        (hd.code_size + hd.signature_size + hd.cert_chain_size)
    next => exact Option.noConfusion htd
  · intro od hod
    split at hod
    next => exact Option.noConfusion hod
    next =>
      have hod' := Option.some.inj hod
      subst hod'
      exact ⟨imageStart hd + hd.image_size, imageStart hd + hd.image_size + d.length,
        drop_eq_pySlice d (imageStart hd + hd.image_size)⟩

/-- C10 witness: the input `ex1`, on which every segment is present. -/
theorem segments_within_input_witness :
    0 < ex1Rom.image.length ∧ ex1Rom.image.length ≤ ex1Rom.header.image_size ∧
    (∀ sd, ex1Rom.sig_data = some sd → sd.length ≤ ex1Rom.header.signature_size) ∧
    (∀ cd, ex1Rom.cert_data = some cd → cd.length ≤ ex1Rom.header.cert_chain_size) ∧
    (∃ A B, ex1Rom.image = pySlice ex1 A B) ∧
    (∃ A B, ex1Rom.code_data = pySlice ex1 A B) ∧
    (∀ sd, ex1Rom.sig_data = some sd → ∃ A B, sd = pySlice ex1 A B) ∧
    (∀ cd, ex1Rom.cert_data = some cd → ∃ A B, cd = pySlice ex1 A B) ∧
    (∀ td, ex1Rom.tail_data = some td → ∃ A B, td = pySlice ex1 A B) ∧
    (∀ od, ex1Rom.overlay_data = some od → ∃ A B, od = pySlice ex1 A B) :=
  segments_within_input ex1 ex1Rom (by decide)

end MbnLoader
